import Mathlib

/-!
Verification of the TfGM tram analyzer (tram_analyzer.py and
tfgm_tram_analyzer/api.py).

The pure core of `tram_analyzer.py` is embedded shallowly: page text is a
Lean `String`, scanned as a `List Char`.  Network retrieval and the
departures-section isolation step are outside the model (the spec makes
transport failure the caller's concern, and every claim below quantifies
over the text that reaches the matcher, which subsumes any section the
isolation step can produce).  The fixed regular expression
`(dest...)\s+(Single|Double)\s+tram\s+([\d]+\s+mins?|Due|...|Now)` is
hand-compiled into a deterministic scanner; its alternations are tried in
the regex's order with full-continuation backtracking, which coincides
with Python `re` semantics here because every alternation's branches are
first-character disjoint once an earlier branch has committed.
-/

/-- Python `\s` on ASCII text: the whitespace characters recognised by
`str.strip` and the regex scanner. -/
def pyWhite (c : Char) : Bool :=
  c == ' ' || c == '\t' || c == '\n' || c == '\r' || c == '\x0b' || c == '\x0c'

/-- Python `str.lower` on ASCII text, character-wise. -/
def pyLower (s : List Char) : List Char := s.map Char.toLower

/-- Python `str.strip()`: drop whitespace from both ends. -/
def pyStrip (s : List Char) : List Char :=
  ((s.dropWhile pyWhite).reverse.dropWhile pyWhite).reverse

/-- Worker for `pyTitle`; the flag records whether the previous character
was alphabetic (i.e. we are inside a word). -/
def pyTitleGo : Bool → List Char → List Char
  | _, [] => []
  | prevAlpha, c :: cs =>
    if c.isAlpha then
      (if prevAlpha then c.toLower else c.toUpper) :: pyTitleGo true cs
    else
      c :: pyTitleGo false cs

/-- Python `str.title()` on ASCII text: first character of each
alphabetic run uppercased, the rest lowercased. -/
def pyTitle (s : List Char) : List Char := pyTitleGo false s

/-- `needle.startsWith` test on character lists. -/
def startsWith : List Char → List Char → Bool
  | [], _ => true
  | _ :: _, [] => false
  | a :: as, b :: bs => a == b && startsWith as bs

/-- Python's substring test `needle in hay`. -/
def containsSub (needle : List Char) : List Char → Bool
  | [] => startsWith needle []
  | c :: t => startsWith needle (c :: t) || containsSub needle t

/-- Value of a digit string, as computed by Python `int`. -/
def digitsToNat (ds : List Char) : Nat :=
  ds.foldl (fun n c => 10 * n + (c.toNat - 48)) 0

/-- `re.search(r"(\d+)", t)`: the first maximal run of digits in `t`,
if any. -/
def firstDigitRun : List Char → Option (List Char)
  | [] => none
  | c :: cs =>
    if c.isDigit then some (c :: cs.takeWhile Char.isDigit)
    else firstDigitRun cs

/-- The zero-wait keywords of `parse_minutes`. -/
def zeroWords : List (List Char) :=
  ["due".toList, "arrived".toList, "departing".toList, "now".toList]

/-- `parse_minutes` from tram_analyzer.py: lowercase and strip the text;
if any zero-wait keyword occurs as a substring return 0; else return the
first run of digits as an integer; else the sentinel 99. -/
def parse_minutes (s : String) : Nat :=
  let t := pyStrip (pyLower s.toList)
  if zeroWords.any (fun w => containsSub w t) then 0
  else
    match firstDigitRun t with
    | some ds => digitsToNat ds
    | none => 99

/-- The zero-wait test of `parse_minutes` as a standalone predicate:
some zero-wait keyword occurs as a substring of the lowercased, stripped
input (Python `any(w in text for w in [...])`). -/
def containsZeroWord (s : String) : Bool :=
  zeroWords.any (fun w => containsSub w (pyStrip (pyLower s.toList)))

/-- The Minute-Text Normalizer as the claim words it (refinement
comparison definition, following the claim, not the source): 0 when the
input case-insensitively *matches* — i.e. equals — one of the zero-wait
tokens, else the first digit run, else 99. -/
def parse_minutes_claimed (s : String) : Nat :=
  let t := pyStrip (pyLower s.toList)
  if zeroWords.any (fun w => t == w) then 0
  else
    match firstDigitRun t with
    | some ds => digitsToNat ds
    | none => 99

/-- `VALID_DESTINATIONS` from tram_analyzer.py, in source order (the
Python value is a set, whose iteration order is unspecified; only the
membership and the lengths matter below). -/
def VALID_DESTINATIONS : List String :=
  ["victoria", "manchester airport", "altrincham", "bury", "rochdale",
   "east didsbury", "eccles", "ashton", "ashton-under-lyne", "oldham",
   "shaw", "firswood", "piccadilly", "deansgate - castlefield",
   "cornbrook", "mediacity uk", "salford quays", "exchange square",
   "st peter\x27s square", "market street", "etihad campus",
   "harbour city", "anchorage", "new islington", "holt town", "velopark",
   "clayton hall", "edge lane", "droylsden", "audenshaw",
   "robinswood road", "barton dock road", "village", "wharfside",
   "imperial war museum", "the trafford centre", "parkway", "roundthorn",
   "baguley", "shadowmoss", "martinscroft", "crossacres", "benchill",
   "wythenshawe town centre", "northern moor", "peel hall",
   "kingsway business park"]

/-- The `key=len, reverse=True` comparison of the destination sort. -/
def lenGe (a b : List Char) : Bool := decide (b.length ≤ a.length)

/-- `sorted(VALID_DESTINATIONS, key=len, reverse=True)`: the alternation
order of the destination matcher, longest entry first. -/
def destOrder : List (List Char) :=
  (VALID_DESTINATIONS.map String.toList).mergeSort lenGe

/-- One raw `pattern.finditer` match: the three captured groups, with the
original (not case-folded) characters of the scanned text. -/
structure RawMatch where
  destRaw : List Char
  carrRaw : List Char
  waitRaw : List Char
deriving DecidableEq

/-- Consume the literal `lit` (given lowercase) case-insensitively from
the front of `s`; return the consumed original characters and the rest. -/
def eatLitCI : List Char → List Char → Option (List Char × List Char)
  | [], s => some ([], s)
  | _ :: _, [] => none
  | l :: ls, c :: cs =>
    if c.toLower == l then
      match eatLitCI ls cs with
      | some (a, r) => some (c :: a, r)
      | none => none
    else none

/-- Consume one or more characters satisfying `p` (greedy, e.g. `\s+` or
`\d+`); fail on zero. -/
def eatWhile1 (p : Char → Bool) : List Char → Option (List Char × List Char)
  | [] => none
  | c :: cs =>
    if p c then some (c :: cs.takeWhile p, cs.dropWhile p) else none

/-- The numeric wait-text alternative `[\d]+\s+mins?`. -/
def eatNumWait (s : List Char) : Option (List Char × List Char) :=
  match eatWhile1 Char.isDigit s with
  | none => none
  | some (d, r1) =>
    match eatWhile1 pyWhite r1 with
    | none => none
    | some (w, r2) =>
      match eatLitCI "min".toList r2 with
      | none => none
      | some (m, r3) =>
        match r3 with
        | c :: cs =>
          if c.toLower == 's' then some (d ++ w ++ m ++ [c], cs)
          else some (d ++ w ++ m, c :: cs)
        | [] => some (d ++ w ++ m, ([] : List Char))

/-- The wait-text group `[\d]+\s+mins?|Due|Arrived|Departing|Now`,
alternatives tried in the regex's order. -/
def eatWait (s : List Char) : Option (List Char × List Char) :=
  match eatNumWait s with
  | some res => some res
  | none =>
    match eatLitCI "due".toList s with
    | some res => some res
    | none =>
      match eatLitCI "arrived".toList s with
      | some res => some res
      | none =>
        match eatLitCI "departing".toList s with
        | some res => some res
        | none => eatLitCI "now".toList s

/-- The carriage-word group `Single|Double`. -/
def eatCarr (s : List Char) : Option (List Char × List Char) :=
  match eatLitCI "single".toList s with
  | some res => some res
  | none => eatLitCI "double".toList s

/-- Attempt the whole pattern at the current position with destination
alternative `d`: `d`, whitespace, `Single|Double`, whitespace, `tram`,
whitespace, wait-text. -/
def tryEntry (d : List Char) (s : List Char) : Option (RawMatch × List Char) :=
  match eatLitCI d s with
  | none => none
  | some (g1, r1) =>
    match eatWhile1 pyWhite r1 with
    | none => none
    | some (_, r2) =>
      match eatCarr r2 with
      | none => none
      | some (g2, r3) =>
        match eatWhile1 pyWhite r3 with
        | none => none
        | some (_, r4) =>
          match eatLitCI "tram".toList r4 with
          | none => none
          | some (_, r5) =>
            match eatWhile1 pyWhite r5 with
            | none => none
            | some (_, r6) =>
              match eatWait r6 with
              | none => none
              | some (g3, r7) =>
                some ({ destRaw := g1, carrRaw := g2, waitRaw := g3 }, r7)

/-- First success of `f` over a list, in order — regex alternation. -/
def firstSome (f : α → Option β) : List α → Option β
  | [] => none
  | x :: xs =>
    match f x with
    | some b => some b
    | none => firstSome f xs

/-- Attempt the pattern at the current position: destination
alternatives in `destOrder` (longest first), each with its full
continuation, exactly as the regex engine backtracks. -/
def matchAt (s : List Char) : Option (RawMatch × List Char) :=
  firstSome (fun d => tryEntry d s) destOrder

/-- `pattern.finditer`, fuel-indexed: on a match, emit it and resume at
the match's end (non-overlapping); otherwise advance one character.  A
successful match always consumes at least one character
(`matchAt_rest_lt` below), so the fuel `s.length + 1` used by `scanText`
is never exhausted (`scanGo_fuel_ge` below). -/
def scanGo : Nat → List Char → List RawMatch
  | 0, _ => []
  | fuel + 1, s =>
    match matchAt s with
    | some (m, rest) => m :: scanGo fuel rest
    | none =>
      match s with
      | [] => []
      | _ :: t => scanGo fuel t

/-- All `finditer` matches of the departure pattern over `s`, leftmost
first. -/
def scanText (s : List Char) : List RawMatch := scanGo (s.length + 1) s

/-- One parsed departure, as appended to the `departures` list in
`fetch_departures`. -/
structure Departure where
  destination : String
  carriages : String
  departure_text : String
  minutes_until : Nat
deriving DecidableEq

/-- Build the departure dict from a raw match: destination is
`group(1).strip().title()`, carriages `group(2).strip()`, wait text
`group(3).strip()`, minutes via `parse_minutes`. -/
def toDeparture (m : RawMatch) : Departure :=
  { destination := String.mk (pyTitle (pyStrip m.destRaw)),
    carriages := String.mk (pyStrip m.carrRaw),
    departure_text := String.mk (pyStrip m.waitRaw),
    minutes_until := parse_minutes (String.mk (pyStrip m.waitRaw)) }

/-- The dedup key `f"{dest.lower()}:{wait_text.lower()}"`. -/
def depKey (d : Departure) : List Char :=
  pyLower d.destination.toList ++ [':'] ++ pyLower d.departure_text.toList

/-- The dedup loop of `fetch_departures`: keep a record only when its
key is not in `seen`; first occurrence wins. -/
def dedupByKey : List Departure → List (List Char) → List Departure
  | [], _ => []
  | d :: ds, seen =>
    if depKey d ∈ seen then dedupByKey ds seen
    else d :: dedupByKey ds (depKey d :: seen)

/-- The sort key comparison `key=lambda x: x["minutes_until"]`. -/
def minuteLe (a b : Departure) : Bool := decide (a.minutes_until ≤ b.minutes_until)

/-- The departure records in match order, after dedup and before the
final sort. -/
def extract_departures (s : String) : List Departure :=
  dedupByKey ((scanText s.toList).map toDeparture) []

/-- `fetch_departures` on the already-isolated departures text: scan,
dedup, then `list.sort` (a stable ascending sort) by `minutes_until`. -/
def fetch_departures (s : String) : List Departure :=
  (extract_departures s).mergeSort minuteLe

/-- The `next_tram` payload of a success result. -/
structure NextTram where
  departure_text : String
  minutes_until : Nat
  destination : String
  carriages : String
deriving DecidableEq

/-- One entry of `all_destination_trams` (no destination field). -/
structure TramSummary where
  departure_text : String
  minutes_until : Nat
  carriages : String
deriving DecidableEq

/-- The three output shapes: `build_result`'s `no_service` and `success`
dicts, and the `error` dict built in `main` / the exception handlers. -/
inductive ScrapeResult where
  | no_service (message : String) (destination_filter : String)
      (all_departures : List Departure) (timestamp : String)
  | success (destination_filter : String) (next_tram : NextTram)
      (next_victoria_tram : NextTram)
      (all_destination_trams : List TramSummary)
      (all_victoria_trams : List TramSummary)
      (all_departures : List Departure) (timestamp : String)
  | error (error : String) (timestamp : String)
deriving DecidableEq

/-- The destination filter `DESTINATION in d["destination"].lower()`
(Python substring test; `DESTINATION` is the env value, pre-lowercased). -/
def matchesFilter (destination : String) (d : Departure) : Bool :=
  containsSub destination.toList (pyLower d.destination.toList)

/-- The four-field `next_tram` dict built from a departure record. -/
def mkNextTram (d : Departure) : NextTram :=
  { departure_text := d.departure_text, minutes_until := d.minutes_until,
    destination := d.destination, carriages := d.carriages }

/-- The three-field summary dict built from a departure record. -/
def mkSummary (d : Departure) : TramSummary :=
  { departure_text := d.departure_text, minutes_until := d.minutes_until,
    carriages := d.carriages }

/-- `build_result` from tram_analyzer.py: filter for the configured
destination; empty filter result gives the `no_service` dict, otherwise
the `success` dict whose `next_tram` is the first filtered record and
which repeats the next/all fields under the legacy `victoria` keys.
`now` stands for the `datetime.now().isoformat()` captured at build
time. -/
def build_result (destination now : String) (departures : List Departure) :
    ScrapeResult :=
  match departures.filter (matchesFilter destination) with
  | [] =>
    .no_service
      (String.mk ("No ".toList ++ pyTitle destination.toList
        ++ "-bound trams in current departures".toList))
      destination departures now
  | t0 :: ts =>
    .success destination (mkNextTram t0) (mkNextTram t0)
      ((t0 :: ts).map mkSummary) ((t0 :: ts).map mkSummary) departures now

/-- The result selection in `main` after a successful fetch: an empty
departure list short-circuits to the `error` dict before `build_result`
is ever consulted. -/
def main_result (destination now : String) (departures : List Departure) :
    ScrapeResult :=
  if departures.isEmpty then
    .error "No departures parsed — page structure may have changed" now
  else build_result destination now departures

/-- Whether a result is the `no_service` shape. -/
def isNoService : ScrapeResult → Bool
  | .no_service .. => true
  | _ => false

/-! ## The api.py orchestrator

api.py holds a mutex-guarded state dict; each handler is embedded as a
pure function from the observed `RunState` (plus the run's inputs) to
the successor state and its outputs.  Timestamps are opaque strings
supplied by the caller; every fallible external call (the
`fetch_and_build` pipeline, each HTTP push) is an `Except String`
outcome supplied by the caller. -/

/-- The `_state["state"]` values. -/
inductive Phase where
  | idle | running | success | error
deriving DecidableEq

/-- The shared `_state` dict of api.py. -/
structure RunState where
  state : Phase
  last_run : Option String
  last_success : Option String
  last_error : Option String
  consecutive_failures : Nat
deriving DecidableEq

/-- What `_push_sensor` did: skipped for lack of a token, pushed, or
caught an exception and logged a warning.  The function returns `None`
in every case — its return type here is a log entry, not an `Except`:
push failures cannot propagate. -/
inductive PushLog where
  | skipped_no_token | pushed | push_failed
deriving DecidableEq

/-- `_push_sensor` from api.py: no token means skip; otherwise attempt
the POST (outcome supplied as `httpResult`, with `raise_for_status`
folded into it) and swallow any exception. -/
def push_sensor (token : String) (httpResult : Except String Unit) : PushLog :=
  if token = "" then .skipped_no_token
  else
    match httpResult with
    | .ok _ => .pushed
    | .error _ => .push_failed

/-- The environment of one run's push attempts: the supervisor token and
the outcome each HTTP push would have. -/
structure PushEnv where
  token : String
  healthBefore : Except String Unit
  resultPush : Except String Unit
  healthAfter : Except String Unit

/-- `run_analysis` from api.py: skip when already running; otherwise
flip to running (recording `last_run`), push the health sensor, run the
pipeline, and on success reset the failure counter / on exception
increment it; push the result and health sensors either way.  Returns
the final state and the push log. -/
def run_analysis (st : RunState) (fetchResult : Except String Unit)
    (nowRun nowDone : String) (pe : PushEnv) : RunState × List PushLog :=
  if st.state = .running then (st, [])
  else
    let stRunning : RunState := { st with state := .running, last_run := some nowRun }
    let log1 := push_sensor pe.token pe.healthBefore
    match fetchResult with
    | .ok _ =>
      ({ stRunning with
          state := .success,
          last_success := some nowDone,
          consecutive_failures := 0,
          last_error := none },
       [log1, push_sensor pe.token pe.resultPush, push_sensor pe.token pe.healthAfter])
    | .error e =>
      ({ stRunning with
          state := .error,
          last_error := some e,
          consecutive_failures := stRunning.consecutive_failures + 1 },
       [log1, push_sensor pe.token pe.resultPush, push_sensor pe.token pe.healthAfter])

/-- The body of the `POST /trigger` response. -/
structure TriggerResponse where
  status_code : Nat
  status : String
  message : Option String
  started_at : Option (Option String)
  timestamp : Option String
deriving DecidableEq

/-- The `/trigger` handler: while running, answer 200 `already_running`
and touch nothing; otherwise answer 200 `triggered` and schedule
`run_analysis` as a background task (the Bool; the handler itself leaves
the state untouched in both cases). -/
def trigger (st : RunState) (now : String) : TriggerResponse × RunState × Bool :=
  if st.state = .running then
    ({ status_code := 200, status := "already_running",
       message := some "Analysis already in progress",
       started_at := some st.last_run, timestamp := none }, st, false)
  else
    ({ status_code := 200, status := "triggered", message := none,
       started_at := none, timestamp := some now }, st, true)

/-- The `GET /status` handler: a snapshot of the state dict, state
untouched. -/
def get_status (st : RunState) : RunState × RunState := (st, st)


/-! ## Scanner integrity lemmas -/

/-- A successful `eatLitCI` splits its input: the consumed slice is as
long as the literal, and the input is slice ++ rest. -/
theorem eatLitCI_eq (l : List Char) :
    ∀ (s a r : List Char), eatLitCI l s = some (a, r) →
      a.length = l.length ∧ s = a ++ r := by
  induction l with
  | nil =>
    intro s a r h
    simp only [eatLitCI, Option.some.injEq, Prod.mk.injEq] at h
    simp [← h.1, ← h.2]
  | cons x xs ih =>
    intro s a r h
    match s with
    | [] => simp [eatLitCI] at h
    | c :: cs =>
      simp only [eatLitCI] at h
      split at h
      · cases he : eatLitCI xs cs with
        | none => rw [he] at h; simp at h
        | some pr =>
          obtain ⟨a1, r1⟩ := pr
          rw [he] at h
          simp only [Option.some.injEq, Prod.mk.injEq] at h
          obtain ⟨h1, h2⟩ := ih cs a1 r1 he
          simp [← h.1, ← h.2, h1, h2]
      · simp at h

/-- A successful `eatWhile1` consumes a nonempty slice and splits its
input. -/
theorem eatWhile1_eq (p : Char → Bool) (s a r : List Char)
    (h : eatWhile1 p s = some (a, r)) : a ≠ [] ∧ s = a ++ r := by
  match s with
  | [] => simp [eatWhile1] at h
  | c :: cs =>
    simp only [eatWhile1] at h
    split at h
    · simp only [Option.some.injEq, Prod.mk.injEq] at h
      refine ⟨by simp [← h.1], ?_⟩
      rw [← h.1, ← h.2]
      simp [List.takeWhile_append_dropWhile]
    · simp at h

theorem eatLitCI_len_le (l s a r : List Char) (h : eatLitCI l s = some (a, r)) :
    r.length ≤ s.length := by
  obtain ⟨-, h2⟩ := eatLitCI_eq l s a r h
  simp [h2]

theorem eatWhile1_len_lt (p : Char → Bool) (s a r : List Char)
    (h : eatWhile1 p s = some (a, r)) : r.length < s.length := by
  obtain ⟨h1, h2⟩ := eatWhile1_eq p s a r h
  have : 0 < a.length := List.length_pos.mpr h1
  simp [h2]
  omega

theorem eatNumWait_len_le (s g r : List Char) (h : eatNumWait s = some (g, r)) :
    r.length ≤ s.length := by
  simp only [eatNumWait] at h
  split at h
  · simp at h
  case _ d r1 heq1 =>
    split at h
    · simp at h
    case _ w r2 heq2 =>
      split at h
      · simp at h
      case _ m r3 heq3 =>
        have l1 := eatWhile1_len_lt _ _ _ _ heq1
        have l2 := eatWhile1_len_lt _ _ _ _ heq2
        have l3 := eatLitCI_len_le _ _ _ _ heq3
        split at h
        case _ c cs =>
          split at h <;>
            (simp only [Option.some.injEq, Prod.mk.injEq] at h
             rw [← h.2]
             simp_all
             omega)
        case _ =>
          simp only [Option.some.injEq, Prod.mk.injEq] at h
          rw [← h.2]
          omega

theorem eatWait_len_le (s g r : List Char) (h : eatWait s = some (g, r)) :
    r.length ≤ s.length := by
  simp only [eatWait] at h
  split at h
  case _ res heq =>
    obtain ⟨g1, r1⟩ := res
    simp only [Option.some.injEq, Prod.mk.injEq] at h
    obtain ⟨hg, hr⟩ := h
    subst hg hr
    exact eatNumWait_len_le _ _ _ heq
  case _ =>
    split at h
    case _ res heq =>
      obtain ⟨g1, r1⟩ := res
      simp only [Option.some.injEq, Prod.mk.injEq] at h
      obtain ⟨hg, hr⟩ := h
      subst hg hr
      exact eatLitCI_len_le _ _ _ _ heq
    case _ =>
      split at h
      case _ res heq =>
        obtain ⟨g1, r1⟩ := res
        simp only [Option.some.injEq, Prod.mk.injEq] at h
        obtain ⟨hg, hr⟩ := h
        subst hg hr
        exact eatLitCI_len_le _ _ _ _ heq
      case _ =>
        split at h
        case _ res heq =>
          obtain ⟨g1, r1⟩ := res
          simp only [Option.some.injEq, Prod.mk.injEq] at h
          obtain ⟨hg, hr⟩ := h
          subst hg hr
          exact eatLitCI_len_le _ _ _ _ heq
        case _ =>
          exact eatLitCI_len_le _ _ _ _ h

theorem eatCarr_len_le (s g r : List Char) (h : eatCarr s = some (g, r)) :
    r.length ≤ s.length := by
  simp only [eatCarr] at h
  split at h
  case _ res heq =>
    obtain ⟨g1, r1⟩ := res
    simp only [Option.some.injEq, Prod.mk.injEq] at h
    obtain ⟨hg, hr⟩ := h
    subst hg hr
    exact eatLitCI_len_le _ _ _ _ heq
  case _ =>
    exact eatLitCI_len_le _ _ _ _ h

/-- A successful full-pattern attempt strictly shrinks the input, since
the whitespace groups are nonempty. -/
theorem tryEntry_rest_lt (d s : List Char) (m : RawMatch) (r : List Char)
    (h : tryEntry d s = some (m, r)) : r.length < s.length := by
  simp only [tryEntry] at h
  split at h
  · simp at h
  case _ g1 r1 heq1 =>
    split at h
    · simp at h
    case _ w r2 heq2 =>
      split at h
      · simp at h
      case _ g2 r3 heq3 =>
        split at h
        · simp at h
        case _ w2 r4 heq4 =>
          split at h
          · simp at h
          case _ t r5 heq5 =>
            split at h
            · simp at h
            case _ w3 r6 heq6 =>
              split at h
              · simp at h
              case _ g3 r7 heq7 =>
                simp only [Option.some.injEq, Prod.mk.injEq] at h
                obtain ⟨-, hr⟩ := h
                subst hr
                have l1 := eatLitCI_len_le _ _ _ _ heq1
                have l2 := eatWhile1_len_lt _ _ _ _ heq2
                have l3 := eatCarr_len_le _ _ _ heq3
                have l4 := eatWhile1_len_lt _ _ _ _ heq4
                have l5 := eatLitCI_len_le _ _ _ _ heq5
                have l6 := eatWhile1_len_lt _ _ _ _ heq6
                have l7 := eatWait_len_le _ _ _ heq7
                omega

/-- The destination group of a successful attempt is exactly as long as
the vocabulary entry tried. -/
theorem tryEntry_destRaw_length (d s : List Char) (m : RawMatch) (r : List Char)
    (h : tryEntry d s = some (m, r)) : m.destRaw.length = d.length := by
  simp only [tryEntry] at h
  split at h
  · simp at h
  case _ g1 r1 heq1 =>
    have hlen := (eatLitCI_eq d s g1 r1 heq1).1
    split at h
    · simp at h
    case _ =>
      split at h
      · simp at h
      case _ =>
        split at h
        · simp at h
        case _ =>
          split at h
          · simp at h
          case _ =>
            split at h
            · simp at h
            case _ =>
              split at h
              · simp at h
              case _ =>
                simp only [Option.some.injEq, Prod.mk.injEq] at h
                obtain ⟨hm, -⟩ := h
                rw [← hm]
                exact hlen

/-- `firstSome` returns the first success: the list splits around the
successful element, with every earlier element failing. -/
theorem firstSome_eq_some {α β : Type} {f : α → Option β} {b : β} :
    ∀ {l : List α}, firstSome f l = some b →
      ∃ pre x post, l = pre ++ x :: post ∧ f x = some b ∧ ∀ y ∈ pre, f y = none := by
  intro l
  induction l with
  | nil => intro h; simp [firstSome] at h
  | cons x xs ih =>
    intro h
    simp only [firstSome] at h
    cases hf : f x with
    | some b2 =>
      simp only [hf] at h
      refine ⟨[], x, xs, by simp, ?_, by simp⟩
      rw [hf]
      simpa using h
    | none =>
      simp only [hf] at h
      obtain ⟨pre, y, post, h1, h2, h3⟩ := ih h
      refine ⟨x :: pre, y, post, by simp [h1], h2, ?_⟩
      intro z hz
      rcases List.mem_cons.mp hz with hz | hz
      · rw [hz]; exact hf
      · exact h3 z hz

/-- A successful `matchAt` comes from some vocabulary entry, every entry
tried before it having failed. -/
theorem matchAt_spec (s : List Char) (m : RawMatch) (r : List Char)
    (h : matchAt s = some (m, r)) :
    ∃ pre d post, destOrder = pre ++ d :: post ∧ tryEntry d s = some (m, r)
      ∧ ∀ y ∈ pre, tryEntry y s = none :=
  firstSome_eq_some h

/-- A successful `matchAt` strictly shrinks the input. -/
theorem matchAt_rest_lt (s : List Char) (m : RawMatch) (r : List Char)
    (h : matchAt s = some (m, r)) : r.length < s.length := by
  obtain ⟨pre, d, post, -, h2, -⟩ := matchAt_spec s m r h
  exact tryEntry_rest_lt d s m r h2

/-- Model integrity: the fuel `s.length + 1` used by `scanText` is
sufficient — any larger fuel scans to the same match list, so the fueled
scanner is the exact `finditer` loop. -/
theorem scanGo_fuel_ge :
    ∀ (fuel : Nat) (s : List Char), s.length + 1 ≤ fuel → scanGo fuel s = scanText s := by
  intro fuel
  induction fuel using Nat.strong_induction_on with
  | _ fuel ih =>
    intro s hf
    match fuel, hf with
    | fuel + 1, hf =>
      rw [scanText]
      simp only [scanGo]
      cases hm : matchAt s with
      | some pr =>
        obtain ⟨m, rest⟩ := pr
        have hlt := matchAt_rest_lt s m rest hm
        have e1 := ih fuel (by omega) rest (by omega)
        have e2 := ih s.length (by omega) rest (by omega)
        rw [scanText] at e1 e2
        simp [e1, e2]
      | none =>
        match s with
        | [] => rfl
        | c :: t =>
          simp only [List.length_cons] at hf
          have e1 := ih fuel (by omega) t (by omega)
          have e2 := ih (t.length + 1) (by omega) t (by omega)
          rw [scanText] at e1 e2
          simp [e1, e2]

/-! ## Longest-match precedence (C3) -/

theorem lenGe_trans (a b c : List Char) (h1 : lenGe a b = true)
    (h2 : lenGe b c = true) : lenGe a c = true := by
  simp only [lenGe, decide_eq_true_eq] at *
  omega

theorem lenGe_total (a b : List Char) : (lenGe a b || lenGe b a) = true := by
  simp only [lenGe, Bool.or_eq_true, decide_eq_true_eq]
  omega

/-- The destination alternation really is longest-first: later entries
are never longer. -/
theorem destOrder_pairwise : destOrder.Pairwise (fun a b => b.length ≤ a.length) := by
  have h := List.sorted_mergeSort lenGe_trans lenGe_total
    (VALID_DESTINATIONS.map String.toList)
  refine h.imp ?_
  intro a b hab
  simpa [lenGe] using hab

unseal List.merge List.mergeSort in
/-- Concrete evaluation of the extractor on the spec's longest-match
example. -/
theorem fetch_example_manchester :
    fetch_departures "Manchester Airport Single tram 4 mins"
      = [{ destination := "Manchester Airport", carriages := "Single",
           departure_text := "4 mins", minutes_until := 4 }] := by decide

/-- C3: destination matching gives precedence to longer vocabulary
entries.  Whenever the matcher succeeds at a position, no strictly
longer vocabulary entry could have completed a match there (so a name
that is a prefix or substring of a longer valid name never consumes the
longer name's match); and on the spec's example the extracted record's
destination is the full "Manchester Airport". -/
theorem C3_longest_match_precedence :
    (∀ (s : List Char) (m : RawMatch) (rest : List Char),
      matchAt s = some (m, rest) →
      ∀ d ∈ destOrder, m.destRaw.length < d.length → tryEntry d s = none)
    ∧ fetch_departures "Manchester Airport Single tram 4 mins"
        = [{ destination := "Manchester Airport", carriages := "Single",
             departure_text := "4 mins", minutes_until := 4 }] := by
  constructor
  · intro s m rest hm d hd hlen
    obtain ⟨pre, d0, post, hsplit, hsucc, hfail⟩ := matchAt_spec s m rest hm
    have hd0len : m.destRaw.length = d0.length := tryEntry_destRaw_length d0 s m rest hsucc
    have hpw := destOrder_pairwise
    rw [hsplit] at hpw hd
    rw [List.pairwise_append] at hpw
    rcases List.mem_append.mp hd with hdpre | hdcons
    · exact hfail d hdpre
    · rcases List.mem_cons.mp hdcons with hdd0 | hdpost
      · subst hdd0
        omega
      · have := (List.pairwise_cons.mp hpw.2.1).1 d hdpost
        omega
  · exact fetch_example_manchester

unseal List.merge List.mergeSort in
/-- C3 witness: on "ashton Single tram Due" the matcher commits to the
entry "ashton", and the strictly longer entry "ashton-under-lyne" indeed
fails at that position. -/
theorem C3_witness :
    tryEntry "ashton-under-lyne".toList "ashton Single tram Due".toList = none :=
  C3_longest_match_precedence.1 "ashton Single tram Due".toList
    { destRaw := "ashton".toList, carrRaw := "Single".toList,
      waitRaw := "Due".toList }
    [] (by decide) "ashton-under-lyne".toList (by decide) (by decide)

/-! ## Sortedness and stability of the extractor (C4) -/

theorem minuteLe_trans (a b c : Departure) (h1 : minuteLe a b = true)
    (h2 : minuteLe b c = true) : minuteLe a c = true := by
  simp only [minuteLe, decide_eq_true_eq] at *
  omega

theorem minuteLe_total (a b : Departure) : (minuteLe a b || minuteLe b a) = true := by
  simp only [minuteLe, Bool.or_eq_true, decide_eq_true_eq]
  omega

/-- The extractor's output is sorted ascending by `minutes_until`. -/
theorem fetch_departures_sorted (s : String) :
    (fetch_departures s).Pairwise (fun a b => a.minutes_until ≤ b.minutes_until) := by
  have h := List.sorted_mergeSort minuteLe_trans minuteLe_total (extract_departures s)
  refine h.imp ?_
  intro a b hab
  simpa [minuteLe] using hab

/-- Stability of the final sort: filtering by any predicate whose
holders are pairwise `minuteLe`-related commutes with the sort. -/
theorem mergeSort_filter_stable (l : List Departure) (p : Departure → Bool)
    (hp : ∀ a b, p a = true → p b = true → minuteLe a b = true) :
    (l.mergeSort minuteLe).filter p = l.filter p := by
  have hpair : (l.filter p).Pairwise (fun a b => minuteLe a b = true) :=
    List.pairwise_of_forall_mem_list (by
      intro a ha b hb
      exact hp a b (List.mem_filter.mp ha).2 (List.mem_filter.mp hb).2)
  have hsub : (l.filter p).Sublist (l.mergeSort minuteLe) :=
    List.sublist_mergeSort minuteLe_trans minuteLe_total hpair (List.filter_sublist l)
  have hself : (l.filter p).filter p = l.filter p :=
    List.filter_eq_self.mpr (fun a ha => (List.mem_filter.mp ha).2)
  have hsub2 : (l.filter p).Sublist ((l.mergeSort minuteLe).filter p) := by
    have := List.Sublist.filter p hsub
    rwa [hself] at this
  have hlen : ((l.mergeSort minuteLe).filter p).length = (l.filter p).length :=
    (List.Perm.filter p (List.mergeSort_perm l minuteLe)).length_eq
  exact (hsub2.eq_of_length hlen.symm).symm

/-- C4: for every input text the extractor's list is sorted ascending by
`minutes_until`, and the sort is stable: the records carrying any given
`minutes_until` value appear exactly as they did in post-dedup match
order (i.e. the order their matches occurred in the source text). -/
theorem C4_sorted_and_stable (s : String) :
    (fetch_departures s).Pairwise (fun a b => a.minutes_until ≤ b.minutes_until)
    ∧ ∀ k : Nat,
      (fetch_departures s).filter (fun r => r.minutes_until == k)
        = (extract_departures s).filter (fun r => r.minutes_until == k) := by
  refine ⟨fetch_departures_sorted s, ?_⟩
  intro k
  refine mergeSort_filter_stable _ _ ?_
  intro a b ha hb
  simp only [beq_iff_eq] at ha hb
  simp [minuteLe, ha, hb]

/-! ## Deduplication (C5) -/

/-- Characterization of the dedup loop: among records with any fixed
key, only the first survives — and none survives if the key was already
seen. -/
theorem dedupByKey_filter (k : List Char) :
    ∀ (l : List Departure) (seen : List (List Char)),
      (dedupByKey l seen).filter (fun r => depKey r == k)
        = if k ∈ seen then []
          else ((l.filter (fun r => depKey r == k)).take 1) := by
  intro l
  induction l with
  | nil => intro seen; simp [dedupByKey]
  | cons d ds ih =>
    intro seen
    simp only [dedupByKey]
    by_cases hseen : depKey d ∈ seen
    · rw [if_pos hseen, ih seen]
      by_cases hk : k ∈ seen
      · simp [hk]
      · have hdk : ¬(depKey d == k) = true := by
          simp only [beq_iff_eq]
          intro he
          exact hk (he ▸ hseen)
        simp [hk, List.filter_cons, hdk]
    · rw [if_neg hseen]
      by_cases hdk : depKey d = k
      · subst hdk
        rw [List.filter_cons]
        simp only [beq_self_eq_true, if_true]
        rw [ih (depKey d :: seen)]
        simp [hseen, List.filter_cons]
      · have hne : k ≠ depKey d := Ne.symm hdk
        have hfd : ¬(depKey d == k) = true := by simp [hdk]
        rw [List.filter_cons, if_neg hfd]
        rw [ih (depKey d :: seen)]
        by_cases hk : k ∈ seen
        · simp [hk]
        · have hmem : k ∉ depKey d :: seen := by simp [List.mem_cons, hk, hne]
          simp [hmem, hk, List.filter_cons, hfd]

/-- The dedup loop emits pairwise-distinct keys, none of them already
seen. -/
theorem dedupByKey_keys (l : List Departure) :
    ∀ seen : List (List Char),
      ((dedupByKey l seen).map depKey).Nodup
      ∧ ∀ x ∈ dedupByKey l seen, depKey x ∉ seen := by
  induction l with
  | nil => intro seen; simp [dedupByKey]
  | cons d ds ih =>
    intro seen
    simp only [dedupByKey]
    by_cases hseen : depKey d ∈ seen
    · rw [if_pos hseen]
      exact ih seen
    · rw [if_neg hseen]
      obtain ⟨h1, h2⟩ := ih (depKey d :: seen)
      refine ⟨?_, ?_⟩
      · simp only [List.map_cons, List.nodup_cons]
        refine ⟨?_, h1⟩
        intro hmem
        obtain ⟨x, hx, hkx⟩ := List.mem_map.mp hmem
        have hni := h2 x hx
        rw [hkx] at hni
        exact hni (by simp)
      · intro x hx
        rcases List.mem_cons.mp hx with hxd | hxds
        · rw [hxd]
          exact hseen
        · have hni := h2 x hxds
          intro hmem
          exact hni (List.mem_cons_of_mem _ hmem)

/-- Lists of length at most one are equal to any permutation of
themselves. -/
theorem perm_eq_of_length_le_one {α : Type} {l l2 : List α}
    (h : l.Perm l2) (hl : l2.length ≤ 1) : l = l2 := by
  cases l2 with
  | nil => exact h.eq_nil
  | cons a t =>
    cases t with
    | nil => exact List.perm_singleton.mp h
    | cons b t2 => simp at hl

/-- C5: the extractor deduplicates by the key
(destination lowercased : wait-text lowercased): the final output has
pairwise-distinct keys, and for every key the output's records are
exactly the first scanned record carrying it. -/
theorem C5_dedup_by_key (s : String) :
    ((fetch_departures s).map depKey).Nodup
    ∧ ∀ k : List Char,
      (fetch_departures s).filter (fun r => depKey r == k)
        = (((scanText s.toList).map toDeparture).filter
            (fun r => depKey r == k)).take 1 := by
  constructor
  · have hn := (dedupByKey_keys ((scanText s.toList).map toDeparture) []).1
    have hperm : (fetch_departures s).Perm (extract_departures s) :=
      List.mergeSort_perm _ _
    exact ((hperm.map depKey).nodup_iff).mpr hn
  · intro k
    have hd := dedupByKey_filter k ((scanText s.toList).map toDeparture) []
    simp only [List.not_mem_nil, if_false] at hd
    have hex : extract_departures s
        = dedupByKey ((scanText s.toList).map toDeparture) [] := rfl
    have hlen : ((extract_departures s).filter (fun r => depKey r == k)).length ≤ 1 := by
      rw [hex, hd]
      simp [List.length_take]
    have hperm : ((fetch_departures s).filter (fun r => depKey r == k)).Perm
        ((extract_departures s).filter (fun r => depKey r == k)) :=
      List.Perm.filter _ (List.mergeSort_perm _ _)
    rw [perm_eq_of_length_le_one hperm hlen, hex, hd]

/-! ## Destination filter and result builder (C6) -/

/-- C6: whenever some extracted record matches the destination filter,
`build_result` returns the success shape; its `next_tram` is built from
the head of the filtered sublist of the extractor's sorted output, that
head carries the minimum `minutes_until` among all matching records, and
the carried matching subset is exactly the filter of the sorted output —
a sublist of it, hence in the extractor's relative order. -/
theorem C6_success_shape (destination now pageText : String)
    (h : ∃ r ∈ fetch_departures pageText, matchesFilter destination r = true) :
    ∃ t0 ts,
      (fetch_departures pageText).filter (matchesFilter destination) = t0 :: ts
      ∧ build_result destination now (fetch_departures pageText)
          = .success destination (mkNextTram t0) (mkNextTram t0)
              ((t0 :: ts).map mkSummary) ((t0 :: ts).map mkSummary)
              (fetch_departures pageText) now
      ∧ (∀ r ∈ fetch_departures pageText, matchesFilter destination r = true →
          t0.minutes_until ≤ r.minutes_until)
      ∧ (t0 :: ts).Sublist (fetch_departures pageText) := by
  obtain ⟨r0, hr0, hm0⟩ := h
  cases hf : (fetch_departures pageText).filter (matchesFilter destination) with
  | nil =>
    exfalso
    have : r0 ∈ (fetch_departures pageText).filter (matchesFilter destination) :=
      List.mem_filter.mpr ⟨hr0, hm0⟩
    rw [hf] at this
    simp at this
  | cons t0 ts =>
    refine ⟨t0, ts, rfl, ?_, ?_, ?_⟩
    · unfold build_result
      rw [hf]
    · intro r hr hmr
      have hrf : r ∈ t0 :: ts := by
        rw [← hf]
        exact List.mem_filter.mpr ⟨hr, hmr⟩
      have hsorted : (t0 :: ts).Pairwise
          (fun a b => a.minutes_until ≤ b.minutes_until) := by
        rw [← hf]
        exact List.Pairwise.sublist (List.filter_sublist _) (fetch_departures_sorted pageText)
      rcases List.mem_cons.mp hrf with hre | hrt
      · rw [hre]
      · exact (List.pairwise_cons.mp hsorted).1 r hrt
    · rw [← hf]
      exact List.filter_sublist _

/-! ## The Minute-Text Normalizer (C2) -/

theorem takeWhile_all_append (p : Char → Bool) (as bs : List Char)
    (h : ∀ c ∈ as, p c = true) :
    (as ++ bs).takeWhile p = as ++ bs.takeWhile p := by
  induction as with
  | nil => simp
  | cons a t ih =>
    have ha := h a (List.mem_cons_self a t)
    simp only [List.cons_append, List.takeWhile_cons, ha, if_true]
    rw [ih (fun c hc => h c (List.mem_cons_of_mem a hc))]

/-- `re.search(r"(\d+)")` finds exactly the first maximal digit run. -/
theorem firstDigitRun_decomp (pre run post : List Char)
    (hpre : ∀ c ∈ pre, c.isDigit = false)
    (hrun : run ≠ []) (hdig : ∀ c ∈ run, c.isDigit = true)
    (hpost : ∀ c, post.head? = some c → c.isDigit = false) :
    firstDigitRun (pre ++ run ++ post) = some run := by
  induction pre with
  | cons a t ih =>
    have ha := hpre a (List.mem_cons_self a t)
    simp only [List.cons_append, firstDigitRun, ha, Bool.false_eq_true, if_false]
    exact ih (fun c hc => hpre c (List.mem_cons_of_mem a hc))
  | nil =>
    match run, hrun with
    | c :: cs, _ =>
      have hc := hdig c (List.mem_cons_self c cs)
      simp only [List.nil_append, List.cons_append, firstDigitRun, hc, if_true]
      rw [show cs.append post = cs ++ post from rfl,
        takeWhile_all_append _ cs post (fun x hx => hdig x (List.mem_cons_of_mem c hx))]
      cases post with
      | nil => simp
      | cons b bs =>
        have hb := hpost b rfl
        simp [List.takeWhile_cons, hb]

theorem firstDigitRun_none (s : List Char) (h : ∀ c ∈ s, c.isDigit = false) :
    firstDigitRun s = none := by
  induction s with
  | nil => rfl
  | cons c cs ih =>
    have hc := h c (List.mem_cons_self c cs)
    simp only [firstDigitRun, hc, Bool.false_eq_true, if_false]
    exact ih (fun x hx => h x (List.mem_cons_of_mem c hx))

/-- C2 counterexample: "snowdon" contains the token "now" as a substring
but does not case-insensitively match any zero-wait token and contains
no digit, so the claim's rule yields the sentinel 99 while the code
returns 0 — the claim's "matches" is falsified by the code's substring
containment. -/
theorem C2_counterexample :
    parse_minutes "snowdon" = 0 ∧ parse_minutes_claimed "snowdon" = 99
    ∧ parse_minutes "snowdon" ≠ parse_minutes_claimed "snowdon" :=
  ⟨by decide, by decide, by decide⟩

/-- C2 (amended): `parse_minutes` is total and returns 0 when the
lowercased stripped input *contains* a zero-wait token as a substring
(not merely when it matches one); otherwise the value of the first
maximal digit run of that text; otherwise the sentinel 99. -/
theorem C2_normalizer_cases (s : String) :
    (containsZeroWord s = true → parse_minutes s = 0)
    ∧ (containsZeroWord s = false →
        ∀ pre run post, pyStrip (pyLower s.toList) = pre ++ run ++ post →
          (∀ c ∈ pre, c.isDigit = false) → run ≠ [] →
          (∀ c ∈ run, c.isDigit = true) →
          (∀ c, post.head? = some c → c.isDigit = false) →
          parse_minutes s = digitsToNat run)
    ∧ (containsZeroWord s = false →
        (∀ c ∈ pyStrip (pyLower s.toList), c.isDigit = false) →
        parse_minutes s = 99) := by
  refine ⟨?_, ?_, ?_⟩
  · intro h
    unfold containsZeroWord at h
    simp only [parse_minutes]
    rw [if_pos h]
  · intro h pre run post hsplit hpre hrun hdig hpost
    unfold containsZeroWord at h
    simp only [parse_minutes]
    rw [if_neg (by simp only [h]; decide), hsplit,
      firstDigitRun_decomp pre run post hpre hrun hdig hpost]
  · intro h hnod
    unfold containsZeroWord at h
    simp only [parse_minutes]
    rw [if_neg (by simp only [h]; decide), firstDigitRun_none _ hnod]

/-- C2 witness: both proved branches at concrete inputs — "Due" contains
a token, "4 mins" decomposes around the digit run "4". -/
theorem C2_witness :
    parse_minutes "Due" = 0 ∧ parse_minutes "4 mins" = 4 :=
  ⟨(C2_normalizer_cases "Due").1 (by decide),
   ((C2_normalizer_cases "4 mins").2.1 (by decide)
      [] ['4'] " mins".toList (by decide) (by decide) (by decide) (by decide)
      (by intro c hc; cases hc; decide)).trans (by decide)⟩

/-! ## Empty extraction vs NoService (C1) -/

/-- C1 counterexample: `build_result` applied to an empty extracted list
returns the `no_service` shape, not an error — the claim's requirement
that the Destination Filter & Result Builder must not produce a
NoService result from an empty extracted list fails on the code (the
empty-list guard lives in `main`, before `build_result` is called). -/
theorem C1_counterexample :
    build_result "victoria" "t0" []
      = .no_service "No Victoria-bound trams in current departures"
          "victoria" [] "t0"
    ∧ isNoService (build_result "victoria" "t0" []) = true :=
  ⟨by decide, by decide⟩

/-- C1 (amended): a run whose extraction yields zero records produces
the error result with the message "No departures parsed — page structure
may have changed", distinct from the NoService shape — but the guard is
`main`'s empty-list check, which short-circuits before `build_result`;
`build_result` itself maps an empty list to `no_service`
(see the counterexample). -/
theorem C1_pipeline_error_on_empty (destination now pageText : String)
    (h : fetch_departures pageText = []) :
    main_result destination now (fetch_departures pageText)
      = .error "No departures parsed — page structure may have changed" now
    ∧ isNoService (main_result destination now (fetch_departures pageText))
        = false := by
  rw [h]
  exact ⟨rfl, rfl⟩

unseal List.merge List.mergeSort in
/-- C1 witness: a non-empty page text with no parsable departures indeed
yields the error shape. -/
theorem C1_witness :
    main_result "victoria" "t1" (fetch_departures "no trams here")
      = .error "No departures parsed — page structure may have changed" "t1"
    ∧ isNoService (main_result "victoria" "t1" (fetch_departures "no trams here"))
        = false :=
  C1_pipeline_error_on_empty "victoria" "t1" "no trams here" (by decide)

unseal List.merge List.mergeSort in
/-- C6 witness: on a board with one Bury and two Victoria departures,
filtering "victoria" succeeds, the success shape carries the filtered
sublist, and `next_tram` is the minimum-minutes matching record. -/
theorem C6_witness :
    ∃ t0 ts,
      (fetch_departures "Bury Single tram 5 mins Victoria Double tram 2 mins Victoria Single tram Due").filter
          (matchesFilter "victoria") = t0 :: ts
      ∧ build_result "victoria" "w0"
          (fetch_departures "Bury Single tram 5 mins Victoria Double tram 2 mins Victoria Single tram Due")
          = .success "victoria" (mkNextTram t0) (mkNextTram t0)
              ((t0 :: ts).map mkSummary) ((t0 :: ts).map mkSummary)
              (fetch_departures "Bury Single tram 5 mins Victoria Double tram 2 mins Victoria Single tram Due") "w0"
      ∧ (∀ r ∈ fetch_departures "Bury Single tram 5 mins Victoria Double tram 2 mins Victoria Single tram Due",
          matchesFilter "victoria" r = true → t0.minutes_until ≤ r.minutes_until)
      ∧ (t0 :: ts).Sublist
          (fetch_departures "Bury Single tram 5 mins Victoria Double tram 2 mins Victoria Single tram Due") :=
  C6_success_shape "victoria" "w0"
    "Bury Single tram 5 mins Victoria Double tram 2 mins Victoria Single tram Due"
    (by decide)

/-! ## Orchestrator state transitions (C7, C8, C9) -/

/-- C7: a run that completes successfully resets
`consecutive_failures` to 0, sets the success phase, records the success
timestamp and clears the last error; a run whose pipeline raises
increments the counter by exactly one, sets the error phase and records
the error text; and no other operation — the skip of an already-running
run, the trigger endpoint, the status endpoint — changes the counter or
any other state field. -/
theorem C7_failure_counter (st : RunState) (fetchResult : Except String Unit)
    (nowRun nowDone : String) (pe : PushEnv) (h : st.state ≠ .running) :
    (∀ u, fetchResult = .ok u →
      (run_analysis st fetchResult nowRun nowDone pe).1
        = { state := .success,
            last_run := some nowRun,
            last_success := some nowDone,
            last_error := none,
            consecutive_failures := 0 })
    ∧ (∀ e, fetchResult = .error e →
      (run_analysis st fetchResult nowRun nowDone pe).1
        = { state := .error,
            last_run := some nowRun,
            last_success := st.last_success,
            last_error := some e,
            consecutive_failures := st.consecutive_failures + 1 })
    ∧ (∀ st2 : RunState, st2.state = .running →
        run_analysis st2 fetchResult nowRun nowDone pe = (st2, []))
    ∧ (∀ (st2 : RunState) (now : String),
        (trigger st2 now).2.1 = st2 ∧ (get_status st2).2 = st2) := by
  refine ⟨?_, ?_, ?_, ?_⟩
  · intro u hu
    subst hu
    simp [run_analysis, h]
  · intro e he
    subst he
    simp [run_analysis, h]
  · intro st2 h2
    simp [run_analysis, h2]
  · intro st2 now
    refine ⟨?_, rfl⟩
    unfold trigger
    by_cases h2 : st2.state = .running <;> simp [h2]

/-- C7 witness: a failing run after three consecutive failures reaches
counter 4; a successful run from an error state resets it to 0. -/
theorem C7_witness :
    (run_analysis ⟨.idle, none, none, some "old", 3⟩ (.error "boom") "r1" "d1"
        ⟨"tok", .ok (), .ok (), .ok ()⟩).1
      = { state := .error,
          last_run := some "r1",
          last_success := none,
          last_error := some "boom",
          consecutive_failures := 4 }
    ∧ (run_analysis ⟨.error, none, none, some "old", 3⟩ (.ok ()) "r2" "d2"
        ⟨"tok", .ok (), .ok (), .ok ()⟩).1
      = { state := .success,
          last_run := some "r2",
          last_success := some "d2",
          last_error := none,
          consecutive_failures := 0 } :=
  ⟨(C7_failure_counter ⟨.idle, none, none, some "old", 3⟩ (.error "boom")
      "r1" "d1" ⟨"tok", .ok (), .ok (), .ok ()⟩ (by decide)).2.1 "boom" rfl,
   (C7_failure_counter ⟨.error, none, none, some "old", 3⟩ (.ok ())
      "r2" "d2" ⟨"tok", .ok (), .ok (), .ok ()⟩ (by decide)).1 () rfl⟩

/-- C8: a trigger while the phase is Running answers HTTP 200 with
status "already_running" and leaves the whole RunState unchanged (and
schedules nothing); a trigger in any other phase answers HTTP 200 with
status "triggered", also leaving the state itself unchanged while
scheduling the background run. -/
theorem C8_trigger_behavior (st : RunState) (now : String) :
    (st.state = .running →
      trigger st now
        = ({ status_code := 200,
             status := "already_running",
             message := some "Analysis already in progress",
             started_at := some st.last_run,
             timestamp := none }, st, false))
    ∧ (st.state ≠ .running →
      trigger st now
        = ({ status_code := 200,
             status := "triggered",
             message := none,
             started_at := none,
             timestamp := some now }, st, true)) := by
  constructor <;> intro h <;> simp [trigger, h]

/-- C8 witness: both branches at concrete states. -/
theorem C8_witness :
    trigger ⟨.running, some "r0", none, none, 2⟩ "n1"
      = ({ status_code := 200,
           status := "already_running",
           message := some "Analysis already in progress",
           started_at := some (some "r0"),
           timestamp := none }, ⟨.running, some "r0", none, none, 2⟩, false)
    ∧ trigger ⟨.idle, none, none, none, 0⟩ "n2"
      = ({ status_code := 200,
           status := "triggered",
           message := none,
           started_at := none,
           timestamp := some "n2" }, ⟨.idle, none, none, none, 0⟩, true) :=
  ⟨(C8_trigger_behavior ⟨.running, some "r0", none, none, 2⟩ "n1").1 rfl,
   (C8_trigger_behavior ⟨.idle, none, none, none, 0⟩ "n2").2 (by decide)⟩

/-- C9: the run's final state is entirely independent of the push
environment — a failing push (HTTP error, timeout, missing token) can
only change the push log, never the state; in particular a successful
pipeline still reaches the success phase with the failure counter reset
to 0 whatever the pushes did. -/
theorem C9_push_failures_swallowed (st : RunState)
    (fetchResult : Except String Unit) (nowRun nowDone : String)
    (pe pe2 : PushEnv) (h : st.state ≠ .running) :
    (run_analysis st fetchResult nowRun nowDone pe).1
      = (run_analysis st fetchResult nowRun nowDone pe2).1
    ∧ (∀ u, fetchResult = .ok u →
        (run_analysis st fetchResult nowRun nowDone pe).1.state = .success
        ∧ (run_analysis st fetchResult nowRun nowDone pe).1.consecutive_failures
            = 0) := by
  constructor
  · unfold run_analysis
    rw [if_neg h, if_neg h]
    cases fetchResult <;> simp
  · intro u hu
    subst hu
    simp [run_analysis, h]

/-- C9 witness: with no supervisor token and every push timing out, a
successful pipeline still ends in the success phase with a zeroed
counter, in the same state as a run whose pushes all succeeded. -/
theorem C9_witness :
    (run_analysis ⟨.idle, none, none, none, 2⟩ (.ok ()) "r1" "d1"
        ⟨"", .error "timeout", .error "timeout", .error "timeout"⟩).1
      = (run_analysis ⟨.idle, none, none, none, 2⟩ (.ok ()) "r1" "d1"
          ⟨"tok", .ok (), .ok (), .ok ()⟩).1
    ∧ (run_analysis ⟨.idle, none, none, none, 2⟩ (.ok ()) "r1" "d1"
        ⟨"", .error "timeout", .error "timeout", .error "timeout"⟩).1.state
        = .success
    ∧ (run_analysis ⟨.idle, none, none, none, 2⟩ (.ok ()) "r1" "d1"
        ⟨"", .error "timeout", .error "timeout", .error "timeout"⟩).1.consecutive_failures
        = 0 := by
  have h := C9_push_failures_swallowed ⟨.idle, none, none, none, 2⟩ (.ok ())
    "r1" "d1" ⟨"", .error "timeout", .error "timeout", .error "timeout"⟩
    ⟨"tok", .ok (), .ok (), .ok ()⟩ (by decide)
  exact ⟨h.1, (h.2 () rfl).1, (h.2 () rfl).2⟩

/-! ## Legacy duplicate fields (C10) -/

/-- C10: every success result duplicates the documented fields into the
legacy keys exactly — `next_victoria_tram` equals `next_tram` and
`all_victoria_trams` equals `all_destination_trams`. -/
theorem C10_legacy_fields (destination now : String)
    (departures : List Departure) (df : String) (nt lnt : NextTram)
    (ats lats : List TramSummary) (ad : List Departure) (ts2 : String)
    (h : build_result destination now departures
        = .success df nt lnt ats lats ad ts2) :
    lnt = nt ∧ lats = ats := by
  unfold build_result at h
  split at h
  · simp at h
  · simp only [ScrapeResult.success.injEq] at h
    obtain ⟨-, h2, h3, h4, h5, -, -⟩ := h
    rw [← h2, ← h3, ← h4, ← h5]
    exact ⟨rfl, rfl⟩

/-- C10 witness: the legacy fields of a concrete success result coincide
with the documented ones. -/
theorem C10_witness :
    mkNextTram ⟨"Victoria", "Double", "2 mins", 2⟩
      = mkNextTram ⟨"Victoria", "Double", "2 mins", 2⟩
    ∧ [mkSummary ⟨"Victoria", "Double", "2 mins", 2⟩]
      = [mkSummary ⟨"Victoria", "Double", "2 mins", 2⟩] :=
  C10_legacy_fields "victoria" "t0" [⟨"Victoria", "Double", "2 mins", 2⟩]
    "victoria" (mkNextTram ⟨"Victoria", "Double", "2 mins", 2⟩)
    (mkNextTram ⟨"Victoria", "Double", "2 mins", 2⟩)
    [mkSummary ⟨"Victoria", "Double", "2 mins", 2⟩]
    [mkSummary ⟨"Victoria", "Double", "2 mins", 2⟩]
    [⟨"Victoria", "Double", "2 mins", 2⟩] "t0" (by decide)
